import Mathlib

/-!
Verification of the ZOE outage-schedule parser and grid renderer.

This development shallowly embeds the two Python source files of the
repository: zoe_parser.py (schedule encoder, persisted-data diff check)
and gener_im_full.py (date selection, split-cell colouring, group
ordering, render entry checks).  Python dictionaries become
insertion-ordered association lists, clock times become exact minute
counts, and fallible Python code returns Except values.
-/

namespace Zoe

/-- Association-list update modelling the Python dict assignment d[k] = v:
an existing key is overwritten in place, a new key is appended at the end,
exactly as Python dicts preserve insertion order. -/
def dictSet {α : Type} : List (String × α) → String → α → List (String × α)
  | [], k, v => [(k, v)]
  | (k', v') :: rest, k, v =>
      if k' = k then (k, v) :: rest else (k', v') :: dictSet rest k v

/-- Association-list lookup modelling Python dict indexing and dict.get:
returns the value stored at the first (for a genuine dict, only)
occurrence of the key. -/
def lookupA {α : Type} : List (String × α) → String → Option α
  | [], _ => none
  | (k', v) :: rest, k => if k' = k then some v else lookupA rest k

/-- Hour-state map of one group: hour key (a decimal string) mapped to a
state string, as stored in result[group_id] by zoe_parser.py. -/
abbrev GroupMap := List (String × String)

/-- Per-date result map: group id mapped to its hour-state map (the dict
named result in zoe_parser.main). -/
abbrev ResultMap := List (String × GroupMap)

/-- Fresh hour map created by zoe_parser.main for a new group: the dict
comprehension mapping str(h) to "yes" for h in range(1, 25). -/
def init_group : GroupMap := (List.range' 1 24).map (fun h => (toString h, "yes"))

/-- Update modelling result[group_id][key] = v.  The Python callers only
execute this statement when group_id is already a key of result (a missing
group would raise KeyError); on an absent group this embedding leaves the
map unchanged, and every theorem that needs the write assumes the group is
present. -/
def dictSetIn (result : ResultMap) (g k v : String) : ResultMap :=
  result.map (fun p => if p.1 = g then (p.1, dictSet p.2 k v) else p)

/-- Loop body of put_interval for one value of the Python loop variable
hour.  Clock times are modelled in exact minutes (t = 60 * hours): the
Python code stores hh + mm/60 as a float and compares it only against
half-integer hour bounds; rounding of hh + mm/60 to binary floating point
can never move it across such a bound, so the minute model takes the same
branch as the float code on every input the parser can produce.  The
locals h_start, h_mid and h_end are the Python locals scaled by 60. -/
def istep (group_id : String) (t1 t2 : ℤ) (res : ResultMap) (hour : ℕ) : ResultMap :=
  let h_start : ℤ := 60 * (hour : ℤ)
  let h_mid : ℤ := h_start + 30
  let h_end : ℤ := h_start + 60
  let first_off : Bool := decide (t1 < h_mid) && decide (t2 > h_start)
  let second_off : Bool := decide (t1 < h_end) && decide (t2 > h_mid)
  if !first_off && !second_off then res
  else
    let key := toString (hour + 1)
    if first_off && second_off then dictSetIn res group_id key "no"
    else if first_off then dictSetIn res group_id key "first"
    else if second_off then dictSetIn res group_id key "second"
    else res

/-- Shallow embedding of put_interval (zoe_parser.py lines 69-88): for hour
in range(1, 25) the entry result[group_id][str(hour + 1)] is set to "no",
"first" or "second" according to the overlap of the interval (t1, t2) with
the two half hours starting at float(hour). -/
def put_interval (result : ResultMap) (group_id : String) (t1 t2 : ℤ) : ResultMap :=
  (List.range' 1 24).foldl (istep group_id t1 t2) result

/-- Verdict of a single put_interval call for the hour key str(k): some
state if the loop writes that key, none if the loop leaves it alone.  The
loop writes key str(hour + 1) for hour in 1..24, so only keys 2..25 are
reachable; the branch conditions are those of istep at hour = k - 1. -/
def hstate (t1 t2 : ℤ) (k : ℕ) : Option String :=
  if 2 ≤ k ∧ k ≤ 25 then
    let h : ℤ := 60 * ((k - 1 : ℕ) : ℤ)
    let first_off : Bool := decide (t1 < h + 30) && decide (t2 > h)
    let second_off : Bool := decide (t1 < h + 60) && decide (t2 > h + 30)
    if first_off && second_off then some "no"
    else if first_off then some "first"
    else if second_off then some "second"
    else none
  else none

/-- State stored for the numeric hour key k of group g. -/
def lookupHour (res : ResultMap) (g : String) (k : ℕ) : Option String :=
  (lookupA res g).bind (fun gm => lookupA gm (toString k))

/-- Application of a list of parsed intervals in input order, as in the
zoe_parser.main loop: for t1_str, t2_str in intervals do
put_interval(result, group_id, t1, t2). -/
def applyIntervals (res : ResultMap) (g : String) (ivs : List (ℤ × ℤ)) : ResultMap :=
  ivs.foldl (fun r iv => put_interval r g iv.1 iv.2) res

/-- Lexicographic code-point comparison of character lists: the order Python
uses for comparing str values, hence for sorted() on str and for the key
order of json.dumps with sort_keys=True. -/
def charsLe : List Char → List Char → Bool
  | [], _ => true
  | _ :: _, [] => false
  | c :: cs, d :: ds =>
    if c.toNat < d.toNat then true
    else if d.toNat < c.toNat then false
    else charsLe cs ds

instance : IsTotal (List Char) (fun a b => charsLe a b = true) where
  total := by
    intro xs
    induction xs with
    | nil => intro ys; left; rfl
    | cons c cs ih =>
      intro ys
      cases ys with
      | nil => right; rfl
      | cons d ds =>
        rcases Nat.lt_trichotomy c.toNat d.toNat with h | h | h
        · left; simp [charsLe, h]
        · rcases ih ds with h' | h'
          · left; simp [charsLe, h, h']
          · right; simp [charsLe, h, h']
        · right; simp [charsLe, h]

instance : IsTrans (List Char) (fun a b => charsLe a b = true) where
  trans := by
    intro xs
    induction xs with
    | nil => intro b c _ _; rfl
    | cons x xs ih =>
      intro b c hab hbc
      cases b with
      | nil => simp [charsLe] at hab
      | cons y ys =>
        cases c with
        | nil => simp [charsLe] at hbc
        | cons z zs =>
          simp only [charsLe] at hab hbc ⊢
          split_ifs at hab hbc ⊢ <;>
            first
              | rfl
              | omega
              | simp at hab
              | simp at hbc
              | exact ih ys zs hab hbc

/-- Python string comparison a <= b. -/
def pyLe (a b : String) : Prop := charsLe a.toList b.toList = true

instance : DecidableRel pyLe := fun _ _ => inferInstanceAs (Decidable (_ = true))

instance : IsTotal String pyLe :=
  ⟨fun a b => IsTotal.total (r := fun x y : List Char => charsLe x y = true)
    a.toList b.toList⟩

instance : IsTrans String pyLe :=
  ⟨fun a b c hab hbc => IsTrans.trans (r := fun x y : List Char => charsLe x y = true)
    a.toList b.toList c.toList hab hbc⟩

/-- Value of a nonempty all-digit character list, as computed by the Python
int builtin on the digit part of its argument. -/
def digitsVal : List Char → Option ℕ
  | [] => none
  | ds =>
    if ds.all Char.isDigit then
      some (ds.foldl (fun acc c => acc * 10 + (c.toNat - 48)) 0)
    else none

/-- Models the Python builtin int(str): optional surrounding whitespace, an
optional single sign, then one or more decimal digits.  (Python additionally
accepts underscores between digits; no key handled by this program contains
one.)  Returns none where int() raises ValueError. -/
def pyParseInt (s : String) : Option ℤ :=
  let cs := ((s.toList.dropWhile Char.isWhitespace).reverse.dropWhile Char.isWhitespace).reverse
  match cs with
  | '-' :: rest => (digitsVal rest).map (fun n => -(n : ℤ))
  | '+' :: rest => (digitsVal rest).map (fun n => (n : ℤ))
  | _ => (digitsVal cs).map (fun n => (n : ℤ))

/-- Failure modes of the embedded gener_im_full.py code paths. -/
inductive PyErr : Type
  | emptyDates
  | valueError
  | typeError
  | missingFields
  deriving DecidableEq

deriving instance DecidableEq for Except

/-- Integer sort key of a date key, as used by the Python expression
sorted(available_dates, key=lambda x: int(x)); the default 0 is never
reached in the branch where this relation is used, because every key
parses there. -/
def intKeyOf (k : String) : ℤ := (pyParseInt k).getD 0

def intKeyLE (a b : String) : Prop := intKeyOf a ≤ intKeyOf b

instance : DecidableRel intKeyLE := fun _ _ => inferInstanceAs (Decidable (_ ≤ _))

instance : IsTotal String intKeyLE := ⟨fun _ _ => le_total _ _⟩

instance : IsTrans String intKeyLE := ⟨fun _ _ _ hab hbc => le_trans hab hbc⟩

/-- Per-date schedule data consumed by the renderer: date key mapped to the
per-group hour-state maps (the value of fact.data in the JSON document). -/
abbrev DataMap := List (String × ResultMap)

/-- Shallow embedding of get_target_date (gener_im_full.py lines 103-142).
The single-key branch mirrors int(fact_data.get("today", day_key)): int of
a dict value raises TypeError, int of the non-numeric day_key itself raises
ValueError.  The multi-key branch mirrors sorted-by-int with a fallback to
plain string sorting, takes the last element, and then evaluates
timestamp = int(day_key), which raises ValueError whenever the selected key
is not numeric. -/
def get_target_date (fact_data : DataMap) : Except PyErr (ℤ × String) :=
  let available_dates := fact_data.map Prod.fst
  if available_dates = [] then Except.error PyErr.emptyDates
  else if available_dates.length = 1 then
    let day_key := available_dates.headD ""
    match pyParseInt day_key with
    | some n => Except.ok (n, day_key)
    | none =>
      match lookupA fact_data "today" with
      | some _ => Except.error PyErr.typeError
      | none =>
        match pyParseInt day_key with
        | some n => Except.ok (n, day_key)
        | none => Except.error PyErr.valueError
  else
    let sorted_dates :=
      if available_dates.all (fun k => (pyParseInt k).isSome) then
        List.insertionSort intKeyLE available_dates
      else
        List.insertionSort pyLe available_dates
    let day_key := sorted_dates.getLastD ""
    match pyParseInt day_key with
    | some n => Except.ok (n, day_key)
    | none => Except.error PyErr.valueError

/-- RGB colour constant of gener_im_full.py: no power (blue). -/
def OUTAGE_COLOR : ℕ × ℕ × ℕ := (147, 170, 210)

/-- RGB colour constant of gener_im_full.py: possible outage (yellow). -/
def POSSIBLE_COLOR : ℕ × ℕ × ℕ := (255, 220, 115)

/-- RGB colour constant of gener_im_full.py: power available (white). -/
def AVAILABLE_COLOR : ℕ × ℕ × ℕ := (255, 255, 255)

/-- Colour computation of draw_split_cell (gener_im_full.py lines 174-271):
the pair of left and right half colours of a cell, from its own state and
the states of the previous and next hour.  The drawing geometry (and the
purely visual rule that equal halves are painted as one solid block) is not
part of any claim and is not modelled. -/
def split_cell_colors (state prev_state next_state : String) :
    (ℕ × ℕ × ℕ) × (ℕ × ℕ × ℕ) :=
  if state = "no" then (OUTAGE_COLOR, OUTAGE_COLOR)
  else if state = "maybe" then (POSSIBLE_COLOR, POSSIBLE_COLOR)
  else if state = "yes" then (AVAILABLE_COLOR, AVAILABLE_COLOR)
  else if state = "first" then
    let right_color :=
      if next_state = "no" then OUTAGE_COLOR
      else if next_state = "maybe" then POSSIBLE_COLOR
      else if next_state = "first" ∨ next_state = "mfirst" then
        (if next_state = "first" then OUTAGE_COLOR else POSSIBLE_COLOR)
      else if next_state = "second" ∨ next_state = "msecond" then AVAILABLE_COLOR
      else AVAILABLE_COLOR
    (OUTAGE_COLOR, right_color)
  else if state = "second" then
    let left_color :=
      if prev_state = "no" then OUTAGE_COLOR
      else if prev_state = "maybe" then POSSIBLE_COLOR
      else if prev_state = "second" ∨ prev_state = "msecond" then
        (if prev_state = "second" then OUTAGE_COLOR else POSSIBLE_COLOR)
      else if prev_state = "first" ∨ prev_state = "mfirst" then AVAILABLE_COLOR
      else AVAILABLE_COLOR
    (left_color, OUTAGE_COLOR)
  else if state = "mfirst" then
    let right_color :=
      if next_state = "no" then OUTAGE_COLOR
      else if next_state = "maybe" then POSSIBLE_COLOR
      else if next_state = "first" ∨ next_state = "mfirst" then OUTAGE_COLOR
      else if next_state = "second" ∨ next_state = "msecond" then OUTAGE_COLOR
      else AVAILABLE_COLOR
    (POSSIBLE_COLOR, right_color)
  else if state = "msecond" then
    let left_color :=
      if prev_state = "no" then OUTAGE_COLOR
      else if prev_state = "maybe" then POSSIBLE_COLOR
      else if prev_state = "second" ∨ prev_state = "msecond" then OUTAGE_COLOR
      else if prev_state = "first" ∨ prev_state = "mfirst" then OUTAGE_COLOR
      else AVAILABLE_COLOR
    (left_color, POSSIBLE_COLOR)
  else (AVAILABLE_COLOR, AVAILABLE_COLOR)

/-- Substring containment on character lists, modelling the Python
expression "GPV" in s. -/
def containsSeq (pat : List Char) : List Char → Bool
  | [] => pat.isEmpty
  | c :: cs => pat.isPrefixOf (c :: cs) || containsSeq pat cs

/-- Python membership test "GPV" in s. -/
def containsGPV (s : String) : Bool := containsSeq "GPV".toList s.toList

/-- First maximal run of decimal digits of a string, as found by the Python
call re.search on the pattern of one-or-more digits. -/
def firstDigitRun : List Char → Option (List Char)
  | [] => none
  | c :: cs =>
    if c.isDigit then some (c :: cs.takeWhile Char.isDigit) else firstDigitRun cs

/-- Numeric value of a digit run, as computed by int on the matched group. -/
def digitRunVal (ds : List Char) : ℕ :=
  ds.foldl (fun acc c => acc * 10 + (c.toNat - 48)) 0

/-- Sort key produced by the local function sort_key inside render
(gener_im_full.py lines 285-293): the Python tuple (0, int(first digit
run)) when "GPV" occurs in the identifier and a digit exists, the tuple
(0, identifier) when "GPV" occurs but no digit does, and (1, identifier)
otherwise. -/
inductive SortKey : Type
  | zeroNum (n : ℕ)
  | zeroStr (s : String)
  | one (s : String)
  deriving DecidableEq

def sort_key (s : String) : SortKey :=
  if containsGPV s then
    match firstDigitRun s.toList with
    | some ds => SortKey.zeroNum (digitRunVal ds)
    | none => SortKey.zeroStr s
  else SortKey.one s

/-- Comparison of sort keys mirroring Python tuple comparison.  Comparing
(0, int) against (0, str) raises TypeError in Python; this embedding gives
those two pairings an arbitrary fixed answer, and every theorem about the
sort assumes inputs that never produce a zeroStr key, so the arbitrary
clauses are never exercised. -/
def skLEb : SortKey → SortKey → Bool
  | .zeroNum a, .zeroNum b => decide (a ≤ b)
  | .zeroNum _, _ => true
  | .zeroStr _, .zeroNum _ => false
  | .zeroStr a, .zeroStr b => charsLe a.toList b.toList
  | .zeroStr _, .one _ => true
  | .one a, .one b => charsLe a.toList b.toList
  | .one _, _ => false

def skLE (a b : SortKey) : Prop := skLEb a b = true

instance : DecidableRel skLE := fun _ _ => inferInstanceAs (Decidable (_ = true))

instance : IsTotal SortKey skLE := by
  constructor
  intro a b
  cases a <;> cases b <;> simp [skLE, skLEb] <;>
    first
      | omega
      | exact IsTotal.total (r := fun x y : List Char => charsLe x y = true) _ _

instance : IsTrans SortKey skLE := by
  constructor
  intro a b c hab hbc
  cases a <;> cases b <;> cases c <;>
    simp only [skLE, skLEb, decide_eq_true_eq] at hab hbc ⊢ <;>
    first
      | rfl
      | omega
      | exact IsTrans.trans (r := fun x y : List Char => charsLe x y = true) _ _ _ hab hbc
      | exact hab
      | exact hbc
      | simp at hab
      | simp at hbc

/-- Group-identifier order used by sorted(..., key=sort_key) in render. -/
def groupLE (a b : String) : Prop := skLE (sort_key a) (sort_key b)

instance : DecidableRel groupLE := fun _ _ => inferInstanceAs (Decidable (_ = true))

instance : IsTotal String groupLE :=
  ⟨fun a b => IsTotal.total (r := skLE) (sort_key a) (sort_key b)⟩

instance : IsTrans String groupLE :=
  ⟨fun _ _ _ hab hbc => IsTrans.trans (r := skLE) _ _ _ hab hbc⟩

/-- The stable sort of the group identifiers computed by render:
groups = sorted(list(day_map.keys()), key=sort_key). -/
def sorted_groups (keys : List String) : List String :=
  List.insertionSort groupLE keys

/-- Document fields consumed by the embedded render: the fact section's
today timestamp and data mapping.  A document without a fact section is
represented with both fields none, exactly as data.get("fact", {}) makes
both membership tests fail. -/
structure PyDoc : Type where
  fact_today : Option ℤ
  fact_data : Option DataMap

/-- Shallow embedding of render (gener_im_full.py lines 274-295) up to the
computation that determines the drawn table: the required-field check, the
target-date selection, and the ordered list of group rows of the selected
date.  All failures happen before anything is drawn, so the raster output
is represented by the row list and an error means no image is produced. -/
def render (doc : PyDoc) : Except PyErr (List String) :=
  if doc.fact_today.isNone ∨ doc.fact_data.isNone then Except.error PyErr.missingFields
  else
    let fact_data := doc.fact_data.getD []
    match get_target_date fact_data with
    | Except.error e => Except.error e
    | Except.ok (_, day_key) =>
      let day_map := (lookupA fact_data day_key).getD []
      Except.ok (sorted_groups (day_map.map Prod.fst))

/-- Key order used by json.dumps(..., sort_keys=True): bindings compared by
their key string in Python string order. -/
def pairLE {α : Type} (p q : String × α) : Prop :=
  charsLe p.1.toList q.1.toList = true

instance {α : Type} : DecidableRel (pairLE (α := α)) :=
  fun _ _ => inferInstanceAs (Decidable (_ = true))

instance {α : Type} : IsTotal (String × α) (pairLE (α := α)) :=
  ⟨fun p q => IsTotal.total (r := fun x y : List Char => charsLe x y = true)
    p.1.toList q.1.toList⟩

instance {α : Type} : IsTrans (String × α) (pairLE (α := α)) :=
  ⟨fun p q r hpq hqr => IsTrans.trans (r := fun x y : List Char => charsLe x y = true)
    p.1.toList q.1.toList r.1.toList hpq hqr⟩

/-- Canonical form of an hour-state map under json.dumps(sort_keys=True):
bindings sorted by key. -/
def canon3 (m : GroupMap) : GroupMap := List.insertionSort pairLE m

/-- Canonical form of a per-group map: group bindings sorted by key with
canonical hour maps inside. -/
def canon2 (m : ResultMap) : ResultMap :=
  List.insertionSort pairLE (m.map (fun p => (p.1, canon3 p.2)))

/-- Canonical form of the per-date data map: date bindings sorted by key
with canonical group maps inside. -/
def canon1 (m : DataMap) : DataMap :=
  List.insertionSort pairLE (m.map (fun p => (p.1, canon2 p.2)))

/-- Shallow embedding of the pre-write change check of zoe_parser.main
(lines 239-246): json.dumps(old_data, sort_keys=True) is compared with
json.dumps(results_for_all_dates, sort_keys=True), and the run reports
"unchanged" exactly when the two serializations agree.  JSON serialization
of string-valued trees is injective once every mapping is key-sorted, so
the comparison is represented by equality of the key-sorted trees.  Only
old_json["fact"]["data"] and the fresh result map enter the comparison:
the update timestamp and the legend (preset) metadata are excluded by
construction. -/
def has_changed (old_data new_data : DataMap) : Bool :=
  !(decide (canon1 old_data = canon1 new_data))

/-- Keys of an association list are pairwise distinct (what being a Python
dict guarantees). -/
def nkeys {α : Type} (m : List (String × α)) : Prop := (m.map Prod.fst).Nodup

/-- Well-formed per-group map: distinct group keys and distinct hour keys
in every group. -/
def nk2 (m : ResultMap) : Prop := nkeys m ∧ ∀ p ∈ m, nkeys p.2

/-- Well-formed per-date map: distinct date keys and well-formed group maps
inside. -/
def nk1 (m : DataMap) : Prop := nkeys m ∧ ∀ p ∈ m, nk2 p.2

instance {α : Type} (m : List (String × α)) : Decidable (nkeys m) :=
  inferInstanceAs (Decidable (List.Nodup _))

instance (m : ResultMap) : Decidable (nk2 m) :=
  inferInstanceAs (Decidable (nkeys m ∧ ∀ p ∈ m, nkeys p.2))

instance (m : DataMap) : Decidable (nk1 m) :=
  inferInstanceAs (Decidable (nkeys m ∧ ∀ p ∈ m, nk2 p.2))

/-- Structural equality of two hour-state maps as finite maps: same hour
keys and equal state at every common key, insertion order ignored. -/
def eqv3 (a b : GroupMap) : Prop :=
  (∀ k, (∃ v, (k, v) ∈ a) ↔ (∃ v, (k, v) ∈ b)) ∧
  (∀ k v w, (k, v) ∈ a → (k, w) ∈ b → v = w)

/-- Structural equality of two per-group maps as finite maps: same group
keys and structurally equal hour maps at every common key. -/
def eqv2 (a b : ResultMap) : Prop :=
  (∀ k, (∃ v, (k, v) ∈ a) ↔ (∃ v, (k, v) ∈ b)) ∧
  (∀ k v w, (k, v) ∈ a → (k, w) ∈ b → eqv3 v w)

/-- Structural equality of two per-date maps as finite maps: same date keys
and structurally equal group maps at every common key. -/
def eqv1 (a b : DataMap) : Prop :=
  (∀ k, (∃ v, (k, v) ∈ a) ↔ (∃ v, (k, v) ∈ b)) ∧
  (∀ k v w, (k, v) ∈ a → (k, w) ∈ b → eqv2 v w)

theorem lookupA_cons {α : Type} (a : String) (b : α) (rest : List (String × α)) (q : String) :
    lookupA ((a, b) :: rest) q = if a = q then some b else lookupA rest q := rfl

theorem lookupA_dictSet {α : Type} (m : List (String × α)) (k q : String) (v : α) :
    lookupA (dictSet m k v) q = if k = q then some v else lookupA m q := by
  induction m with
  | nil =>
    by_cases h : k = q <;> simp [dictSet, lookupA_cons, lookupA, h]
  | cons p rest ih =>
    obtain ⟨a, b⟩ := p
    by_cases hak : a = k
    · subst hak
      rw [dictSet, if_pos rfl]
      by_cases haq : a = q <;> simp [lookupA_cons, haq]
    · rw [dictSet, if_neg hak, lookupA_cons, lookupA_cons]
      by_cases haq : a = q
      · have hkq : ¬ k = q := fun h => hak (haq.trans h.symm)
        simp [haq, hkq]
      · simp [haq, ih]

theorem dictSetIn_cons (a : String) (gm : GroupMap) (rest : ResultMap) (g k v : String) :
    dictSetIn ((a, gm) :: rest) g k v =
      (if a = g then (a, dictSet gm k v) else (a, gm)) :: dictSetIn rest g k v := by
  simp only [dictSetIn, List.map_cons]

theorem lookupA_dictSetIn (res : ResultMap) (g k v : String) (g' : String) :
    lookupA (dictSetIn res g k v) g' =
      if g' = g then (lookupA res g').map (fun gm => dictSet gm k v)
      else lookupA res g' := by
  induction res with
  | nil => by_cases h : g' = g <;> simp [dictSetIn, lookupA, h]
  | cons p rest ih =>
    obtain ⟨a, gm⟩ := p
    rw [dictSetIn_cons]
    by_cases hag : a = g
    · rw [if_pos hag, lookupA_cons, lookupA_cons]
      by_cases hag' : a = g'
      · have : g' = g := hag'.symm.trans hag
        simp [hag', this]
      · by_cases hgg : g' = g
        · exact absurd (hag.trans hgg.symm) hag'
        · simp [hag', hgg, ih]
    · rw [if_neg hag, lookupA_cons, lookupA_cons]
      by_cases hag' : a = g'
      · have hgg : ¬ g' = g := fun h => hag (hag'.trans h)
        simp [hag', hgg]
      · simp [hag', ih]

theorem keys_dictSetIn (res : ResultMap) (g k v : String) :
    (dictSetIn res g k v).map Prod.fst = res.map Prod.fst := by
  induction res with
  | nil => rfl
  | cons p rest ih =>
    obtain ⟨a, gm⟩ := p
    rw [dictSetIn_cons]
    by_cases h : a = g <;> simp [h, ih]

theorem lookupA_of_mem_keys {α : Type} {res : List (String × α)} {g : String}
    (hg : g ∈ res.map Prod.fst) : ∃ v, lookupA res g = some v := by
  induction res with
  | nil => simp at hg
  | cons p rest ih =>
    obtain ⟨a, b⟩ := p
    by_cases h : a = g
    · exact ⟨b, by simp [lookupA_cons, h]⟩
    · have hg2 : g = a ∨ g ∈ rest.map Prod.fst := by
        rw [List.map_cons, List.mem_cons] at hg
        exact hg
      have hg' : g ∈ rest.map Prod.fst := by
        rcases hg2 with h' | h'
        · exact absurd h'.symm h
        · exact h'
      obtain ⟨v, hv⟩ := ih hg'
      exact ⟨v, by simp [lookupA_cons, h, hv]⟩

theorem keys_istep (g : String) (t1 t2 : ℤ) (res : ResultMap) (hour : ℕ) :
    (istep g t1 t2 res hour).map Prod.fst = res.map Prod.fst := by
  unfold istep
  dsimp only
  split_ifs <;> simp [keys_dictSetIn]

/-- Decimal representations of naturals up to 25 are pairwise distinct. -/
theorem toString_nat_inj25 : ∀ i < 26, ∀ j < 26, i ≠ j → toString i ≠ toString j := by
  decide

theorem lookupHour_dictSetIn_num (res : ResultMap) (g g' : String) (j k : ℕ) (v : String)
    (hj : j ≤ 25) (hk : k ≤ 25) (hg : g ∈ res.map Prod.fst) :
    lookupHour (dictSetIn res g (toString j) v) g' k =
      if g' = g ∧ j = k then some v else lookupHour res g' k := by
  obtain ⟨gm, hgm⟩ := lookupA_of_mem_keys hg
  unfold lookupHour
  rw [lookupA_dictSetIn]
  by_cases hgg : g' = g
  · subst hgg
    rw [if_pos rfl, hgm]
    simp only [Option.map_some', Option.some_bind]
    rw [lookupA_dictSet]
    by_cases hjk : j = k
    · subst hjk
      simp [hgm]
    · rw [if_neg (toString_nat_inj25 j (by omega) k (by omega) hjk)]
      simp [hjk, hgm]
  · rw [if_neg hgg]
    simp [hgg]

theorem istep_lookup (g : String) (t1 t2 : ℤ) (res : ResultMap) (hour : ℕ)
    (h1 : 1 ≤ hour) (h24 : hour ≤ 24) (hg : g ∈ res.map Prod.fst)
    (g' : String) (k : ℕ) (hk : k ≤ 25) :
    lookupHour (istep g t1 t2 res hour) g' k =
      if g' = g ∧ hour + 1 = k ∧ (hstate t1 t2 k).isSome then hstate t1 t2 k
      else lookupHour res g' k := by
  by_cases hjk : hour + 1 = k
  · subst hjk
    unfold istep hstate
    rw [if_pos (by omega : 2 ≤ hour + 1 ∧ hour + 1 ≤ 25)]
    dsimp only
    rw [show ((hour + 1 - 1 : ℕ) : ℤ) = (hour : ℤ) by norm_num]
    cases hfo : decide (t1 < 60 * (hour : ℤ) + 30) && decide (t2 > 60 * (hour : ℤ)) <;>
    cases hso : decide (t1 < 60 * (hour : ℤ) + 60) && decide (t2 > 60 * (hour : ℤ) + 30) <;>
    simp only [Bool.not_false, Bool.not_true, Bool.and_self, Bool.and_false, Bool.false_and,
      Bool.and_true, Bool.true_and, if_true, if_false, Bool.false_eq_true, ite_false, ite_true] <;>
    (first
      | (rw [lookupHour_dictSetIn_num res g g' (hour + 1) (hour + 1) _ (by omega) (by omega) hg]
         simp)
      | simp)
  · have hrhs : (if g' = g ∧ hour + 1 = k ∧ (hstate t1 t2 k).isSome then hstate t1 t2 k
        else lookupHour res g' k) = lookupHour res g' k := by
      simp [hjk]
    rw [hrhs]
    unfold istep
    dsimp only
    cases hfo : decide (t1 < 60 * (hour : ℤ) + 30) && decide (t2 > 60 * (hour : ℤ)) <;>
    cases hso : decide (t1 < 60 * (hour : ℤ) + 60) && decide (t2 > 60 * (hour : ℤ) + 30) <;>
    simp only [Bool.not_false, Bool.not_true, Bool.and_self, Bool.and_false, Bool.false_and,
      Bool.and_true, Bool.true_and, if_true, if_false, Bool.false_eq_true, ite_false, ite_true] <;>
    (first
      | (rw [lookupHour_dictSetIn_num res g g' (hour + 1) k _ (by omega) hk hg]
         simp [hjk])
      | simp [hjk])

theorem foldl_istep_lookup (g : String) (t1 t2 : ℤ) :
    ∀ (hs : List ℕ), (∀ h ∈ hs, 1 ≤ h ∧ h ≤ 24) →
    ∀ (res : ResultMap), g ∈ res.map Prod.fst →
    ∀ (g' : String) (k : ℕ), k ≤ 25 →
    lookupHour (hs.foldl (istep g t1 t2) res) g' k =
      if g' = g ∧ (k - 1) ∈ hs ∧ (hstate t1 t2 k).isSome then hstate t1 t2 k
      else lookupHour res g' k := by
  intro hs
  induction hs with
  | nil =>
    intro _ res _ g' k _
    simp
  | cons h t ih =>
    intro hmem res hg g' k hk
    have hh1 : 1 ≤ h := (hmem h (List.mem_cons_self h t)).1
    have hh24 : h ≤ 24 := (hmem h (List.mem_cons_self h t)).2
    rw [List.foldl_cons]
    have hkeys : g ∈ (istep g t1 t2 res h).map Prod.fst := by
      rw [keys_istep]; exact hg
    rw [ih (fun x hx => hmem x (List.mem_cons_of_mem h hx)) _ hkeys g' k hk]
    rw [istep_lookup g t1 t2 res h hh1 hh24 hg g' k hk]
    by_cases hgg : g' = g
    · by_cases hS : (hstate t1 t2 k).isSome
      · by_cases ht' : (k - 1) ∈ t
        · simp [hgg, hS, ht', List.mem_cons]
        · by_cases hhk : h + 1 = k
          · have hkh : k - 1 = h := by omega
            simp [hgg, hS, ht', hhk, hkh, List.mem_cons]
          · have hkh : k - 1 ≠ h := by omega
            simp [hgg, hS, ht', hhk, hkh, List.mem_cons]
      · simp [hS]
    · simp [hgg]

/-- Pointwise description of put_interval: for every hour key k up to 25,
group g gets the verdict hstate when there is one, every other entry is
untouched.  Requires the group to be present, as in the Python callers. -/
theorem put_interval_lookup (res : ResultMap) (g : String) (t1 t2 : ℤ)
    (hg : g ∈ res.map Prod.fst) (g' : String) (k : ℕ) (hk : k ≤ 25) :
    lookupHour (put_interval res g t1 t2) g' k =
      if g' = g ∧ (hstate t1 t2 k).isSome then hstate t1 t2 k
      else lookupHour res g' k := by
  unfold put_interval
  rw [foldl_istep_lookup g t1 t2 (List.range' 1 24)
    (fun x hx => by rw [List.mem_range'] at hx; omega) res hg g' k hk]
  by_cases hS : (hstate t1 t2 k).isSome
  · have h2k : 2 ≤ k ∧ k ≤ 25 := by
      by_contra hcon
      unfold hstate at hS
      rw [if_neg hcon] at hS
      simp at hS
    have hmem : (k - 1) ∈ List.range' 1 24 := by
      rw [List.mem_range']
      exact ⟨k - 2, by omega, by omega⟩
    simp [hS, hmem]
  · simp [hS]

/-- Propositional description of the branch conditions of hstate for a key
in the writable range 2..25. -/
theorem hstate_eq (t1 t2 : ℤ) (k : ℕ) (h2 : 2 ≤ k) (h25 : k ≤ 25) :
    hstate t1 t2 k =
      if (t1 < 60 * ((k : ℤ) - 1) + 30 ∧ t2 > 60 * ((k : ℤ) - 1)) ∧
         (t1 < 60 * ((k : ℤ) - 1) + 60 ∧ t2 > 60 * ((k : ℤ) - 1) + 30) then some "no"
      else if t1 < 60 * ((k : ℤ) - 1) + 30 ∧ t2 > 60 * ((k : ℤ) - 1) then some "first"
      else if t1 < 60 * ((k : ℤ) - 1) + 60 ∧ t2 > 60 * ((k : ℤ) - 1) + 30 then some "second"
      else none := by
  unfold hstate
  rw [if_pos ⟨h2, h25⟩]
  dsimp only
  rw [show ((k - 1 : ℕ) : ℤ) = (k : ℤ) - 1 by
    rw [Nat.cast_sub (by omega : 1 ≤ k)]; norm_num]
  simp only [Bool.and_eq_true, decide_eq_true_eq, gt_iff_lt]

/-- An interval whose closure does not meet the clock hour of key k leaves
no verdict for key k. -/
theorem hstate_none_of_no_overlap (t1 t2 : ℤ) (k : ℕ) (hk : k ≤ 25)
    (h : t2 ≤ 60 * (k : ℤ) - 60 ∨ 60 * (k : ℤ) ≤ t1) : hstate t1 t2 k = none := by
  by_cases h2 : 2 ≤ k
  · rw [hstate_eq t1 t2 k h2 hk, if_neg (by omega), if_neg (by omega), if_neg (by omega)]
  · unfold hstate
    rw [if_neg (by omega)]

theorem init_group_lookup : ∀ k < 25, 1 ≤ k → lookupA init_group (toString k) = some "yes" := by
  decide

theorem keys_foldl_istep (g : String) (t1 t2 : ℤ) :
    ∀ (hs : List ℕ) (res : ResultMap),
      (hs.foldl (istep g t1 t2) res).map Prod.fst = res.map Prod.fst := by
  intro hs
  induction hs with
  | nil => intro res; rfl
  | cons h t ih =>
    intro res
    rw [List.foldl_cons, ih, keys_istep]

theorem keys_put_interval (res : ResultMap) (g : String) (t1 t2 : ℤ) :
    (put_interval res g t1 t2).map Prod.fst = res.map Prod.fst :=
  keys_foldl_istep g t1 t2 (List.range' 1 24) res

/-- C6: when intervals are applied in input order, the state finally stored
for an hour key is exactly the verdict of the last interval that affects
that key (the last interval with a some verdict); earlier verdicts are
overwritten, never unioned, and a key no interval affects keeps its prior
state. -/
theorem interval_overwrite_last_wins (res : ResultMap) (g : String) (ivs : List (ℤ × ℤ))
    (hg : g ∈ res.map Prod.fst) (k : ℕ) (hk : k ≤ 25) :
    lookupHour (applyIntervals res g ivs) g k =
      match (ivs.filterMap (fun iv => hstate iv.1 iv.2 k)).getLast? with
      | some v => some v
      | none => lookupHour res g k := by
  induction ivs generalizing res with
  | nil => simp [applyIntervals]
  | cons iv rest ih =>
    have h1 : applyIntervals res g (iv :: rest) =
        applyIntervals (put_interval res g iv.1 iv.2) g rest := rfl
    have hg' : g ∈ (put_interval res g iv.1 iv.2).map Prod.fst := by
      rw [keys_put_interval]; exact hg
    rw [h1, ih _ hg', List.filterMap_cons]
    cases hs : hstate iv.1 iv.2 k with
    | none =>
      cases hrest : (rest.filterMap (fun iv => hstate iv.1 iv.2 k)).getLast? with
      | some v => rfl
      | none =>
        rw [put_interval_lookup res g iv.1 iv.2 hg g k hk]
        simp [hs]
    | some v0 =>
      rw [List.getLast?_cons]
      cases hrest : (rest.filterMap (fun iv => hstate iv.1 iv.2 k)).getLast? with
      | some v => simp [hrest]
      | none =>
        simp only [hrest, Option.getD_none]
        rw [put_interval_lookup res g iv.1 iv.2 hg g k hk]
        simp [hs]

/-- Witness for interval_overwrite_last_wins: hour key 6 is affected by both
intervals 05:00-06:00 (verdict "no") and 05:30-06:30 (verdict "second");
the later interval alone decides the stored state. -/
theorem interval_overwrite_last_wins_witness :
    "GPV1.1" ∈ ([("GPV1.1", init_group)] : ResultMap).map Prod.fst ∧
    (6 : ℕ) ≤ 25 ∧
    lookupHour (applyIntervals [("GPV1.1", init_group)] "GPV1.1" [(300, 360), (330, 390)])
        "GPV1.1" 6 =
      match (([(300, 360), (330, 390)] : List (ℤ × ℤ)).filterMap
          (fun iv => hstate iv.1 iv.2 6)).getLast? with
      | some v => some v
      | none => lookupHour [("GPV1.1", init_group)] "GPV1.1" 6 :=
  ⟨by decide, by decide,
    interval_overwrite_last_wins [("GPV1.1", init_group)] "GPV1.1" [(300, 360), (330, 390)]
      (by decide) 6 (by decide)⟩

/-- C7 counterexample: the boundary-crossing interval 00:45-01:15 (45 to 75
minutes) crosses clock hour 1, so by the claimed general rule hour 1 should
receive the second-half mark and hour 2 the first-half mark; the code
produces only hour 2 = "first" and leaves hour 1 at "yes", because hour
key "1" is unreachable (the same slip as in the hour-1 defect). -/
theorem boundary_interval_one_counterexample :
    lookupHour (put_interval [("GPV1.1", init_group)] "GPV1.1" 45 75) "GPV1.1" 2 =
        some "first" ∧
    lookupHour (put_interval [("GPV1.1", init_group)] "GPV1.1" 45 75) "GPV1.1" 1 =
        some "yes" :=
  ⟨by decide, by decide⟩

/-- C7 (amended): an interval that starts in the second half of the clock
hour before clock time 60 * c and ends in the first half of the hour after
it, for 2 <= c <= 23, marks hour key c with "second" and hour key c + 1
with "first", leaving every other hour of a fresh group at "yes"; the
specification instance 10.75-11.25 is the case c = 11.  For a crossing of
clock hour 1 the earlier-hour mark is lost (see the counterexample). -/
theorem boundary_interval_split (c : ℕ) (t1 t2 : ℤ) (g : String)
    (hc2 : 2 ≤ c) (hc23 : c ≤ 23)
    (hl : 60 * (c : ℤ) - 30 ≤ t1) (h1 : t1 < 60 * (c : ℤ))
    (h2 : 60 * (c : ℤ) < t2) (hr : t2 ≤ 60 * (c : ℤ) + 30)
    (k : ℕ) (hk1 : 1 ≤ k) (hk24 : k ≤ 24) :
    lookupHour (put_interval [(g, init_group)] g t1 t2) g k =
      some (if k = c then "second" else if k = c + 1 then "first" else "yes") := by
  have hg0 : g ∈ ([(g, init_group)] : ResultMap).map Prod.fst := by simp
  rw [put_interval_lookup _ g t1 t2 hg0 g k (by omega)]
  have hinit : lookupHour [(g, init_group)] g k = some "yes" := by
    unfold lookupHour
    rw [lookupA_cons, if_pos rfl]
    simp only [Option.some_bind]
    exact init_group_lookup k (by omega) hk1
  by_cases hkc : k = c
  · subst hkc
    have hs : hstate t1 t2 k = some "second" := by
      rw [hstate_eq t1 t2 k (by omega) (by omega), if_neg (by omega), if_neg (by omega),
        if_pos (by omega)]
    rw [if_pos (by simp [hs])]
    rw [hs, if_pos rfl]
  · by_cases hkc1 : k = c + 1
    · subst hkc1
      have hs : hstate t1 t2 (c + 1) = some "first" := by
        rw [hstate_eq t1 t2 (c + 1) (by omega) (by omega)]
        rw [if_neg (by push_cast; omega), if_pos (by push_cast; omega)]
      rw [if_pos (by simp [hs])]
      rw [hs, if_neg hkc, if_pos rfl]
    · have hs : hstate t1 t2 k = none := by
        by_cases h2k : 2 ≤ k
        · rw [hstate_eq t1 t2 k h2k (by omega), if_neg (by omega), if_neg (by omega),
            if_neg (by omega)]
        · unfold hstate
          rw [if_neg (by omega)]
      rw [if_neg (by simp [hs])]
      rw [hinit, if_neg hkc, if_neg hkc1]

/-- Witness for boundary_interval_split at the interval 10:45-11:15 of the
specification example (645 and 675 minutes, c = 11), checked at the hour
keys 11, 12 and 5. -/
theorem boundary_interval_split_witness :
    lookupHour (put_interval [("GPV1.1", init_group)] "GPV1.1" 645 675) "GPV1.1" 11 =
        some "second" ∧
    lookupHour (put_interval [("GPV1.1", init_group)] "GPV1.1" 645 675) "GPV1.1" 12 =
        some "first" ∧
    lookupHour (put_interval [("GPV1.1", init_group)] "GPV1.1" 645 675) "GPV1.1" 5 =
        some "yes" := by
  refine ⟨?_, ?_, ?_⟩
  · have h := boundary_interval_split 11 645 675 "GPV1.1" (by decide) (by decide)
      (by decide) (by decide) (by decide) (by decide) 11 (by decide) (by decide)
    simpa using h
  · have h := boundary_interval_split 11 645 675 "GPV1.1" (by decide) (by decide)
      (by decide) (by decide) (by decide) (by decide) 12 (by decide) (by decide)
    simpa using h
  · have h := boundary_interval_split 11 645 675 "GPV1.1" (by decide) (by decide)
      (by decide) (by decide) (by decide) (by decide) 5 (by decide) (by decide)
    simpa using h

/-- C1: evaluation of the code at the failing input of the hour-1 defect.
The interval 00:00-01:00 (t1 = 0, t2 = 60 minutes) exactly covers clock
hour [0, 1), the hour that key "1" denotes, yet put_interval leaves a fresh
group completely unchanged: the loop writes keys str(hour + 1) for hour in
1..24, so key "1" is unreachable and the outage is silently dropped. -/
theorem hour_one_never_marked :
    put_interval [("GPV1.1", init_group)] "GPV1.1" 0 60 = [("GPV1.1", init_group)] := by
  decide

theorem lookupA_istep_other (g : String) (t1 t2 : ℤ) (res : ResultMap) (hour : ℕ)
    (g' : String) (hne : g' ≠ g) :
    lookupA (istep g t1 t2 res hour) g' = lookupA res g' := by
  unfold istep
  dsimp only
  split_ifs <;> (first | rfl | (rw [lookupA_dictSetIn, if_neg hne]))

theorem lookupA_put_interval_other (res : ResultMap) (g : String) (t1 t2 : ℤ)
    (g' : String) (hne : g' ≠ g) :
    lookupA (put_interval res g t1 t2) g' = lookupA res g' := by
  unfold put_interval
  generalize List.range' 1 24 = hs
  induction hs generalizing res with
  | nil => rfl
  | cons h t ih =>
    rw [List.foldl_cons, ih, lookupA_istep_other g t1 t2 res h g' hne]

theorem dictSetIn_of_not_mem (res : ResultMap) (g k v : String)
    (hg : g ∉ res.map Prod.fst) : dictSetIn res g k v = res := by
  induction res with
  | nil => rfl
  | cons p rest ih =>
    obtain ⟨a, gm⟩ := p
    have ha : a ≠ g := by
      intro h
      exact hg (by simp [h])
    have hrest : g ∉ rest.map Prod.fst := by
      intro h
      exact hg (by simp [h])
    rw [dictSetIn_cons, if_neg ha, ih hrest]

theorem put_interval_of_not_mem (res : ResultMap) (g : String) (t1 t2 : ℤ)
    (hg : g ∉ res.map Prod.fst) : put_interval res g t1 t2 = res := by
  unfold put_interval
  generalize List.range' 1 24 = hs
  induction hs generalizing res with
  | nil => rfl
  | cons h t ih =>
    have hstep : istep g t1 t2 res h = res := by
      unfold istep
      dsimp only
      split_ifs <;> (first | rfl | (rw [dictSetIn_of_not_mem _ _ _ _ hg]))
    rw [List.foldl_cons, hstep, ih _ hg]

/-- C10 (amended): frame property of put_interval.  Every group other than
group_id keeps its entire hour map, and an hour key whose clock hour lies
entirely left or entirely right of the interval keeps its state; degenerate
intervals with t2 less than or equal to t1 are not in general a no-op (see
the counterexample), so the per-hour part is stated through the explicit
non-overlap bounds that the branch conditions actually respect. -/
theorem put_interval_frame (res : ResultMap) (g : String) (t1 t2 : ℤ) :
    (∀ g', g' ≠ g → lookupA (put_interval res g t1 t2) g' = lookupA res g') ∧
    (∀ k : ℕ, k ≤ 25 → (t2 ≤ 60 * (k : ℤ) - 60 ∨ 60 * (k : ℤ) ≤ t1) →
      ∀ g', lookupHour (put_interval res g t1 t2) g' k = lookupHour res g' k) := by
  constructor
  · intro g' hne
    exact lookupA_put_interval_other res g t1 t2 g' hne
  · intro k hk hno g'
    by_cases hg : g ∈ res.map Prod.fst
    · rw [put_interval_lookup res g t1 t2 hg g' k hk]
      rw [if_neg (by simp [hstate_none_of_no_overlap t1 t2 k hk hno])]
    · rw [put_interval_of_not_mem res g t1 t2 hg]

/-- Witness for put_interval_frame: the interval 01:40-03:20 (100 to 200
minutes) leaves the other group GPVB untouched and leaves hour key 10 of
the written group GPVA untouched. -/
theorem put_interval_frame_witness :
    lookupA (put_interval [("GPVA", init_group), ("GPVB", init_group)] "GPVA" 100 200)
        "GPVB" = lookupA ([("GPVA", init_group), ("GPVB", init_group)] : ResultMap) "GPVB" ∧
    lookupHour (put_interval [("GPVA", init_group), ("GPVB", init_group)] "GPVA" 100 200)
        "GPVA" 10 =
      lookupHour ([("GPVA", init_group), ("GPVB", init_group)] : ResultMap) "GPVA" 10 :=
  ⟨(put_interval_frame [("GPVA", init_group), ("GPVB", init_group)] "GPVA" 100 200).1
      "GPVB" (by decide),
   (put_interval_frame [("GPVA", init_group), ("GPVB", init_group)] "GPVA" 100 200).2
      10 (by decide) (Or.inl (by decide)) "GPVA"⟩

/-- C10 counterexample: the degenerate interval with t1 = t2 = 315 minutes
(5.25 hours) is not a no-op: the branch condition first_off at hour 5 reads
t1 less than 5.5 hours and t2 greater than 5 hours, both true, so hour key
"6" is overwritten with "first" even though the interval is empty. -/
theorem put_interval_degenerate_not_noop :
    put_interval [("GPV1.1", init_group)] "GPV1.1" 315 315 ≠ [("GPV1.1", init_group)] ∧
    lookupHour (put_interval [("GPV1.1", init_group)] "GPV1.1" 315 315) "GPV1.1" 6 =
      some "first" ∧
    lookupHour [("GPV1.1", init_group)] "GPV1.1" 6 = some "yes" := by
  refine ⟨by decide, by decide, by decide⟩

/-- Lexicographic code-point comparison of character lists: the order Python
uses for comparing str values, hence for sorted() on str and for the key
order of json.dumps with sort_keys=True. -/

theorem charsLe_cons (c d : Char) (cs ds : List Char) :
    charsLe (c :: cs) (d :: ds) =
      if c.toNat < d.toNat then true
      else if d.toNat < c.toNat then false
      else charsLe cs ds := rfl

theorem charsLe_antisymm (a : List Char) :
    ∀ b, charsLe a b = true → charsLe b a = true → a = b := by
  induction a with
  | nil =>
    intro b _ hba
    cases b with
    | nil => rfl
    | cons d ds => simp [charsLe] at hba
  | cons c cs ih =>
    intro b hab hba
    cases b with
    | nil => simp [charsLe] at hab
    | cons d ds =>
      rw [charsLe_cons] at hab hba
      split_ifs at hab hba with h1 h2 h3 h4 <;>
        first
          | omega
          | simp at hab
          | simp at hba
          | (have hnat : c.toNat = d.toNat := by omega
             have hcd : c = d := by
               apply Char.eq_of_val_eq
               apply UInt32.ext
               exact hnat
             rw [hcd, ih ds hab hba])

/-- Python string comparison a <= b. -/

theorem getLast?_mem {α : Type} : ∀ (l : List α) (x : α), l.getLast? = some x → x ∈ l := by
  intro l
  induction l with
  | nil => intro x h; simp at h
  | cons a t ih =>
    intro x h
    cases t with
    | nil =>
      have : a = x := by simpa using h
      simp [this]
    | cons b bs =>
      rw [List.getLast?_cons_cons] at h
      exact List.mem_cons_of_mem a (ih x h)

theorem sorted_getLast?_max {r : String → String → Prop} [IsTrans String r] :
    ∀ (L : List String), List.Sorted r L → ∀ M, L.getLast? = some M →
      ∀ x ∈ L, x = M ∨ r x M := by
  intro L
  induction L with
  | nil => intro _ M h; simp at h
  | cons a t ih =>
    intro hs M hM x hx
    cases t with
    | nil =>
      have haM : a = M := by simpa using hM
      have hxa : x = a := by simpa using hx
      left
      rw [hxa, haM]
    | cons b bs =>
      rw [List.getLast?_cons_cons] at hM
      rw [List.sorted_cons] at hs
      rcases List.mem_cons.mp hx with hxa | hxt
      · right
        have hMmem : M ∈ b :: bs := getLast?_mem _ _ hM
        rw [hxa]
        exact hs.1 M hMmem
      · exact ih hs.2 M hM x hxt

/-- Last element of an insertion sort of a nonempty list: it belongs to the
list and dominates every element in the sorting relation. -/
theorem insertionSort_getLastD_max (r : String → String → Prop) [DecidableRel r]
    [IsTotal String r] [IsTrans String r] (l : List String) (hne : l ≠ []) :
    (List.insertionSort r l).getLastD "" ∈ l ∧
      ∀ x ∈ l, x = (List.insertionSort r l).getLastD "" ∨
        r x ((List.insertionSort r l).getLastD "") := by
  have hperm := List.perm_insertionSort r l
  have hLne : List.insertionSort r l ≠ [] := by
    intro h
    exact hne (List.Perm.eq_nil ((h ▸ hperm).symm))
  obtain ⟨M, hM⟩ : ∃ M, (List.insertionSort r l).getLast? = some M := by
    cases hL : (List.insertionSort r l).getLast? with
    | some M => exact ⟨M, rfl⟩
    | none => exact absurd (List.getLast?_eq_none_iff.mp hL) hLne
  have hgd : (List.insertionSort r l).getLastD "" = M := by
    rw [List.getLastD_eq_getLast?, hM]
    rfl
  rw [hgd]
  constructor
  · exact hperm.mem_iff.mp (getLast?_mem _ _ hM)
  · intro x hx
    exact sorted_getLast?_max _ (List.sorted_insertionSort r l) M hM x (hperm.mem_iff.mpr hx)

/-- C8: with at least two date keys, all parsing as integers, the selector
returns a key of numerically largest integer value together with that
value as the timestamp. -/
theorem target_date_numeric_max (d : DataMap) (h2 : 2 ≤ d.length)
    (hall : ∀ k ∈ d.map Prod.fst, (pyParseInt k).isSome = true) :
    ∃ (n : ℤ) (M : String), get_target_date d = Except.ok (n, M) ∧
      M ∈ d.map Prod.fst ∧ pyParseInt M = some n ∧
      ∀ k ∈ d.map Prod.fst, intKeyOf k ≤ n := by
  have hne0 : d.map Prod.fst ≠ [] := by
    intro h
    have hlen : (d.map Prod.fst).length = d.length := List.length_map _ _
    rw [h] at hlen
    simp at hlen
    omega
  have hne1 : ¬ (d.map Prod.fst).length = 1 := by
    rw [List.length_map]
    omega
  obtain ⟨hmem, hmax⟩ := insertionSort_getLastD_max intKeyLE (d.map Prod.fst) hne0
  have hMparse := hall _ hmem
  obtain ⟨n, hn⟩ :
      ∃ n, pyParseInt ((List.insertionSort intKeyLE (d.map Prod.fst)).getLastD "") = some n := by
    cases hp : pyParseInt ((List.insertionSort intKeyLE (d.map Prod.fst)).getLastD "") with
    | some n => exact ⟨n, rfl⟩
    | none => rw [hp] at hMparse; simp at hMparse
  have hMval : intKeyOf ((List.insertionSort intKeyLE (d.map Prod.fst)).getLastD "") = n := by
    unfold intKeyOf
    rw [hn]
    rfl
  refine ⟨n, _, ?_, hmem, hn, ?_⟩
  · unfold get_target_date
    dsimp only
    rw [if_neg hne0, if_neg hne1, if_pos (List.all_eq_true.mpr hall), hn]
  · intro k hk
    rcases hmax k hk with h | h
    · rw [h, hMval]
    · exact le_of_le_of_eq h hMval

/-- Witness for target_date_numeric_max at date keys 100, 200, 50; the
decided conjunct checks the exact outcome of the specification example. -/
theorem target_date_numeric_max_witness :
    (2 ≤ ([("100", []), ("200", []), ("50", [])] : DataMap).length) ∧
    (∀ k ∈ ([("100", []), ("200", []), ("50", [])] : DataMap).map Prod.fst,
      (pyParseInt k).isSome = true) ∧
    get_target_date [("100", []), ("200", []), ("50", [])] = Except.ok (200, "200") ∧
    (∃ (n : ℤ) (M : String),
      get_target_date [("100", []), ("200", []), ("50", [])] = Except.ok (n, M) ∧
      M ∈ ([("100", []), ("200", []), ("50", [])] : DataMap).map Prod.fst ∧
      pyParseInt M = some n ∧
      ∀ k ∈ ([("100", []), ("200", []), ("50", [])] : DataMap).map Prod.fst,
        intKeyOf k ≤ n) :=
  ⟨by decide, by decide, by decide,
    target_date_numeric_max [("100", []), ("200", []), ("50", [])] (by decide) (by decide)⟩

/-- C3 (amended): with at least two date keys and at least one that does
not parse as an integer, the selector falls back to string ordering and
selects the lexicographically last key; it returns that key with its
integer value when the selected key itself parses, and otherwise raises
ValueError (the code always evaluates int(day_key) on the selected key). -/
theorem target_date_string_fallback (d : DataMap) (h2 : 2 ≤ d.length)
    (hbad : ∃ k ∈ d.map Prod.fst, pyParseInt k = none) :
    ∃ M, M ∈ d.map Prod.fst ∧ (∀ k ∈ d.map Prod.fst, k = M ∨ pyLe k M) ∧
      (∀ n, pyParseInt M = some n → get_target_date d = Except.ok (n, M)) ∧
      (pyParseInt M = none → get_target_date d = Except.error PyErr.valueError) := by
  have hne0 : d.map Prod.fst ≠ [] := by
    intro h
    have hlen : (d.map Prod.fst).length = d.length := List.length_map _ _
    rw [h] at hlen
    simp at hlen
    omega
  have hne1 : ¬ (d.map Prod.fst).length = 1 := by
    rw [List.length_map]
    omega
  have hnotC : ¬ ((d.map Prod.fst).all (fun k => (pyParseInt k).isSome) = true) := by
    intro hA
    obtain ⟨k, hk, hkn⟩ := hbad
    have := List.all_eq_true.mp hA k hk
    rw [hkn] at this
    simp at this
  obtain ⟨hmem, hmax⟩ := insertionSort_getLastD_max pyLe (d.map Prod.fst) hne0
  refine ⟨(List.insertionSort pyLe (d.map Prod.fst)).getLastD "", hmem, hmax, ?_, ?_⟩
  · intro n hn
    unfold get_target_date
    dsimp only
    rw [if_neg hne0, if_neg hne1, if_neg hnotC, hn]
  · intro hn
    unfold get_target_date
    dsimp only
    rw [if_neg hne0, if_neg hne1, if_neg hnotC, hn]

/-- Witness for target_date_string_fallback at the date keys of the
specification example, inserted in the order b then a. -/
theorem target_date_string_fallback_witness :
    (2 ≤ ([("b", []), ("a", [])] : DataMap).length) ∧
    (∃ k ∈ ([("b", []), ("a", [])] : DataMap).map Prod.fst, pyParseInt k = none) ∧
    (∃ M, M ∈ ([("b", []), ("a", [])] : DataMap).map Prod.fst ∧
      (∀ k ∈ ([("b", []), ("a", [])] : DataMap).map Prod.fst, k = M ∨ pyLe k M) ∧
      (∀ n, pyParseInt M = some n →
        get_target_date [("b", []), ("a", [])] = Except.ok (n, M)) ∧
      (pyParseInt M = none →
        get_target_date [("b", []), ("a", [])] = Except.error PyErr.valueError)) :=
  ⟨by decide, by decide,
    target_date_string_fallback [("b", []), ("a", [])] (by decide) (by decide)⟩

/-- C3 counterexample: at the claim's own example, date keys b and a, the
selector does not return the lexicographically last key "b" with a
timestamp; it raises ValueError, because after the string-ordering fallback
the code still computes timestamp = int(day_key) and "b" is not numeric. -/
theorem target_date_nonnumeric_raises :
    get_target_date [("b", []), ("a", [])] = Except.error PyErr.valueError ∧
    (get_target_date [("b", []), ("a", [])]).isOk = false := by
  exact ⟨by decide, by decide⟩

/-- Evaluation of split_cell_colors at own state "first": the branch on the
state string is resolved, leaving the next-hour lookup. -/
theorem split_first_eval (prev next : String) :
    split_cell_colors "first" prev next =
      (OUTAGE_COLOR,
        if next = "no" then OUTAGE_COLOR
        else if next = "maybe" then POSSIBLE_COLOR
        else if next = "first" ∨ next = "mfirst" then
          (if next = "first" then OUTAGE_COLOR else POSSIBLE_COLOR)
        else if next = "second" ∨ next = "msecond" then AVAILABLE_COLOR
        else AVAILABLE_COLOR) := by
  unfold split_cell_colors
  rw [if_neg (by decide : ¬ ("first" : String) = "no"),
    if_neg (by decide : ¬ ("first" : String) = "maybe"),
    if_neg (by decide : ¬ ("first" : String) = "yes"), if_pos rfl]

/-- Evaluation of split_cell_colors at own state "second": the branch on
the state string is resolved, leaving the previous-hour lookup. -/
theorem split_second_eval (prev next : String) :
    split_cell_colors "second" prev next =
      ((if prev = "no" then OUTAGE_COLOR
        else if prev = "maybe" then POSSIBLE_COLOR
        else if prev = "second" ∨ prev = "msecond" then
          (if prev = "second" then OUTAGE_COLOR else POSSIBLE_COLOR)
        else if prev = "first" ∨ prev = "mfirst" then AVAILABLE_COLOR
        else AVAILABLE_COLOR),
       OUTAGE_COLOR) := by
  unfold split_cell_colors
  rw [if_neg (by decide : ¬ ("second" : String) = "no"),
    if_neg (by decide : ¬ ("second" : String) = "maybe"),
    if_neg (by decide : ¬ ("second" : String) = "yes"),
    if_neg (by decide : ¬ ("second" : String) = "first"), if_pos rfl]

/-- C2: for state "first" the left half is the outage colour and the right
half follows the fixed lookup on the next hour; for state "second" the
right half is the outage colour and the left half follows the fixed lookup
on the previous hour; in particular a "second" hour followed by a "first"
hour gets the outage colour on both sides of their shared boundary. -/
theorem split_cell_first_second_rule (prev next : String) :
    (split_cell_colors "first" prev next).1 = OUTAGE_COLOR ∧
    (split_cell_colors "first" prev next).2 =
      (if next = "no" ∨ next = "first" then OUTAGE_COLOR
       else if next = "maybe" ∨ next = "mfirst" then POSSIBLE_COLOR
       else AVAILABLE_COLOR) ∧
    (split_cell_colors "second" prev next).2 = OUTAGE_COLOR ∧
    (split_cell_colors "second" prev next).1 =
      (if prev = "no" ∨ prev = "second" then OUTAGE_COLOR
       else if prev = "maybe" ∨ prev = "msecond" then POSSIBLE_COLOR
       else AVAILABLE_COLOR) ∧
    (split_cell_colors "second" prev "first").2 = OUTAGE_COLOR ∧
    (split_cell_colors "first" "second" next).1 = OUTAGE_COLOR := by
  refine ⟨?_, ?_, ?_, ?_, ?_, ?_⟩
  · rw [split_first_eval]
  · rw [split_first_eval]
    by_cases h1 : next = "no"
    · simp [h1]
    · by_cases h2 : next = "maybe"
      · simp [h1, h2]
      · by_cases h3 : next = "first"
        · simp [h1, h2, h3]
        · by_cases h4 : next = "mfirst"
          · simp [h1, h2, h3, h4]
          · by_cases h5 : next = "second"
            · simp [h1, h2, h3, h4, h5]
            · by_cases h6 : next = "msecond"
              · simp [h1, h2, h3, h4, h5, h6]
              · simp [h1, h2, h3, h4, h5, h6]
  · rw [split_second_eval]
  · rw [split_second_eval]
    by_cases h1 : prev = "no"
    · simp [h1]
    · by_cases h2 : prev = "maybe"
      · simp [h1, h2]
      · by_cases h3 : prev = "second"
        · simp [h1, h2, h3]
        · by_cases h4 : prev = "msecond"
          · simp [h1, h2, h3, h4]
          · by_cases h5 : prev = "first"
            · simp [h1, h2, h3, h4, h5]
            · by_cases h6 : prev = "mfirst"
              · simp [h1, h2, h3, h4, h5, h6]
              · simp [h1, h2, h3, h4, h5, h6]
  · rw [split_second_eval]
  · rw [split_first_eval]

/-- C9: render fails with the missing-required-fields error whenever the
fact section lacks the today key or the data key, and in that case no
image is produced (the function returns before any drawing). -/
theorem render_missing_fields (doc : PyDoc)
    (h : doc.fact_today = none ∨ doc.fact_data = none) :
    render doc = Except.error PyErr.missingFields := by
  unfold render
  rcases h with h | h <;> rw [if_pos (by simp [h])]

/-- Witness for render_missing_fields: a document with data but no today
key, and a document with today but no data key. -/
theorem render_missing_fields_witness :
    ((PyDoc.mk none (some [("100", [])])).fact_today = none ∨
      (PyDoc.mk none (some [("100", [])])).fact_data = none) ∧
    render (PyDoc.mk none (some [("100", [])])) = Except.error PyErr.missingFields ∧
    ((PyDoc.mk (some 100) none).fact_today = none ∨
      (PyDoc.mk (some 100) none).fact_data = none) ∧
    render (PyDoc.mk (some 100) none) = Except.error PyErr.missingFields :=
  ⟨Or.inl rfl, render_missing_fields _ (Or.inl rfl),
   Or.inr rfl, render_missing_fields _ (Or.inr rfl)⟩

/-- C4 counterexample: with insertion order GPV1.2 then GPV1.1 the renderer
keeps that order, because sort_key uses only the first digit run (both keys
are (0, 1)), so the claimed 1.1-before-1.2 order fails; and non-GPV groups
are sorted lexicographically instead of keeping their original name order
(bbb, aaa renders as aaa, bbb). -/
theorem render_group_order_counterexample :
    render (PyDoc.mk (some 0)
        (some [("1000", [("GPV1.2", []), ("GPV1.1", [])])])) =
      Except.ok ["GPV1.2", "GPV1.1"] ∧
    render (PyDoc.mk (some 0)
        (some [("1000", [("bbb", []), ("aaa", [])])])) =
      Except.ok ["aaa", "bbb"] :=
  ⟨by decide, by decide⟩

/-- C4 (amended): render sorts the selected date's group identifiers stably
by sort_key, so the output is a permutation of the day map's keys that is
sorted by groupLE: identifiers containing "GPV" (with a digit) come first,
ordered by their first digit run only, with ties left in insertion order
(GPV1.2 before GPV1.1 when inserted that way); all other identifiers
follow, ordered lexicographically by the full identifier rather than by
original name order.  The hypothesis excludes identifiers that contain
"GPV" but no digit, for which Python comparison of the mixed key tuples
can raise TypeError. -/
theorem render_group_order_amended :
    (∀ keys : List String,
      (∀ s ∈ keys, containsGPV s = true → (firstDigitRun s.toList).isSome = true) →
      List.Perm (sorted_groups keys) keys ∧ List.Pairwise groupLE (sorted_groups keys)) ∧
    (∀ (t : ℤ) (fd : DataMap) (n : ℤ) (day_key : String),
      get_target_date fd = Except.ok (n, day_key) →
      render (PyDoc.mk (some t) (some fd)) =
        Except.ok (sorted_groups (((lookupA fd day_key).getD []).map Prod.fst))) ∧
    sorted_groups ["GPV1.2", "GPV1.1"] = ["GPV1.2", "GPV1.1"] ∧
    sorted_groups ["bbb", "aaa"] = ["aaa", "bbb"] := by
  refine ⟨?_, ?_, by decide, by decide⟩
  · intro keys _
    exact ⟨List.perm_insertionSort groupLE keys, List.sorted_insertionSort groupLE keys⟩
  · intro t fd n day_key h
    unfold render
    rw [if_neg (by simp)]
    simp only [Option.getD_some]
    rw [h]

/-- Witness for render_group_order_amended on keys GPV2 and alpha. -/
theorem render_group_order_amended_witness :
    (∀ s ∈ ["GPV2", "alpha"], containsGPV s = true → (firstDigitRun s.toList).isSome = true) ∧
    (List.Perm (sorted_groups ["GPV2", "alpha"]) ["GPV2", "alpha"] ∧
      List.Pairwise groupLE (sorted_groups ["GPV2", "alpha"])) ∧
    (get_target_date [("1000", [("GPV2", [])])] = Except.ok (1000, "1000") ∧
      render (PyDoc.mk (some 0) (some [("1000", [("GPV2", [])])])) =
        Except.ok (sorted_groups
          (((lookupA ([("1000", [("GPV2", [])])] : DataMap) "1000").getD []).map Prod.fst))) :=
  ⟨by decide,
   render_group_order_amended.1 ["GPV2", "alpha"] (by decide),
   by decide,
   render_group_order_amended.2.1 0 [("1000", [("GPV2", [])])] 1000 "1000" (by decide)⟩

/-- Key order used by json.dumps(..., sort_keys=True): bindings compared by
their key string in Python string order. -/

theorem nodup_lookup_unique {α : Type} :
    ∀ (m : List (String × α)), (m.map Prod.fst).Nodup →
      ∀ k (v w : α), (k, v) ∈ m → (k, w) ∈ m → v = w := by
  intro m
  induction m with
  | nil => intro _ k v w hv _; simp at hv
  | cons p t ih =>
    intro hnd k v w hv hw
    have hnd' := hnd
    rw [List.map_cons, List.nodup_cons] at hnd'
    rcases List.mem_cons.mp hv with hv1 | hv1 <;> rcases List.mem_cons.mp hw with hw1 | hw1
    · rw [← hv1] at hw1
      exact (Prod.mk.injEq _ _ _ _ |>.mp hw1.symm).2
    · exfalso
      apply hnd'.1
      rw [← hv1]
      exact List.mem_map.mpr ⟨(k, w), hw1, rfl⟩
    · exfalso
      apply hnd'.1
      rw [← hw1]
      exact List.mem_map.mpr ⟨(k, v), hv1, rfl⟩
    · exact ih hnd'.2 k v w hv1 hw1

theorem perm_strict_sorted_eq {α : Type} :
    ∀ (l₁ l₂ : List (String × α)), l₁.Perm l₂ →
      l₁.Pairwise (fun p q => p.1 ≠ q.1 ∧ pairLE p q) →
      l₂.Pairwise (fun p q => p.1 ≠ q.1 ∧ pairLE p q) →
      l₁ = l₂ := by
  intro l₁
  induction l₁ with
  | nil =>
    intro l₂ hp _ _
    exact (List.Perm.eq_nil hp.symm).symm
  | cons a t₁ ih =>
    intro l₂ hp h₁ h₂
    cases l₂ with
    | nil => exact absurd (List.Perm.eq_nil hp) (by simp)
    | cons b t₂ =>
      have hab : a = b := by
        by_contra hne
        have ha2 : a ∈ b :: t₂ := hp.mem_iff.mp (List.mem_cons_self a t₁)
        have hat2 : a ∈ t₂ := by
          rcases List.mem_cons.mp ha2 with h | h
          · exact absurd h hne
          · exact h
        have hb1 : b ∈ a :: t₁ := hp.mem_iff.mpr (List.mem_cons_self b t₂)
        have hbt1 : b ∈ t₁ := by
          rcases List.mem_cons.mp hb1 with h | h
          · exact absurd h.symm hne
          · exact h
        have hr1 := (List.pairwise_cons.mp h₁).1 b hbt1
        have hr2 := (List.pairwise_cons.mp h₂).1 a hat2
        exact hr1.1 (String.toList_inj.mp
          (charsLe_antisymm a.1.toList b.1.toList hr1.2 hr2.2))
      subst hab
      have ht : t₁.Perm t₂ := hp.cons_inv
      rw [ih t₂ ht (List.pairwise_cons.mp h₁).2 (List.pairwise_cons.mp h₂).2]

theorem pairwise_strict_insertionSort {α : Type} (m : List (String × α))
    (hm : (m.map Prod.fst).Nodup) :
    (List.insertionSort pairLE m).Pairwise (fun p q => p.1 ≠ q.1 ∧ pairLE p q) := by
  have hsorted : (List.insertionSort pairLE m).Pairwise (pairLE (α := α)) :=
    List.sorted_insertionSort pairLE m
  have hperm := List.perm_insertionSort pairLE m
  have hnd : ((List.insertionSort pairLE m).map Prod.fst).Nodup :=
    ((hperm.map Prod.fst).nodup_iff).mpr hm
  have hne : (List.insertionSort pairLE m).Pairwise (fun p q => p.1 ≠ q.1) :=
    List.pairwise_map.mp hnd
  have := hne.and hsorted
  exact this.imp (fun h => ⟨h.1, h.2⟩)

/-- Equality of the key-sorted forms of two association lists with distinct
keys is exactly equality of their sets of bindings. -/
theorem canonsort_eq_iff_graph {α : Type} (m₁ m₂ : List (String × α))
    (h₁ : (m₁.map Prod.fst).Nodup) (h₂ : (m₂.map Prod.fst).Nodup) :
    List.insertionSort pairLE m₁ = List.insertionSort pairLE m₂ ↔
      ∀ p : String × α, p ∈ m₁ ↔ p ∈ m₂ := by
  constructor
  · intro h p
    have e₁ := List.perm_insertionSort pairLE m₁
    have e₂ := List.perm_insertionSort pairLE m₂
    constructor
    · intro hp
      exact e₂.mem_iff.mp (h ▸ e₁.mem_iff.mpr hp)
    · intro hp
      exact e₁.mem_iff.mp (h ▸ e₂.mem_iff.mpr hp)
  · intro h
    have hn₁ : m₁.Nodup := List.Nodup.of_map Prod.fst h₁
    have hn₂ : m₂.Nodup := List.Nodup.of_map Prod.fst h₂
    have hperm : m₁.Perm m₂ := (List.perm_ext_iff_of_nodup hn₁ hn₂).mpr h
    exact perm_strict_sorted_eq _ _
      (((List.perm_insertionSort pairLE m₁).trans hperm).trans
        (List.perm_insertionSort pairLE m₂).symm)
      (pairwise_strict_insertionSort m₁ h₁)
      (pairwise_strict_insertionSort m₂ h₂)

/-- Equality of the binding sets of two value-mapped association lists with
distinct keys, phrased through key sets and value agreement under f. -/
theorem graph_map_iff {α γ : Type} (f : α → γ) (a b : List (String × α))
    (ha : (a.map Prod.fst).Nodup) (hb : (b.map Prod.fst).Nodup) :
    (∀ q : String × γ, q ∈ a.map (fun p => (p.1, f p.2)) ↔
        q ∈ b.map (fun p => (p.1, f p.2))) ↔
      ((∀ k, (∃ v, (k, v) ∈ a) ↔ (∃ v, (k, v) ∈ b)) ∧
       (∀ k v w, (k, v) ∈ a → (k, w) ∈ b → f v = f w)) := by
  constructor
  · intro h
    constructor
    · intro k
      constructor
      · rintro ⟨v, hv⟩
        have : (k, f v) ∈ b.map (fun p => (p.1, f p.2)) :=
          (h (k, f v)).mp (List.mem_map.mpr ⟨(k, v), hv, rfl⟩)
        obtain ⟨p, hpb, hpe⟩ := List.mem_map.mp this
        obtain ⟨h1, _⟩ := Prod.mk.injEq _ _ _ _ |>.mp hpe
        exact ⟨p.2, by rw [← h1]; exact hpb⟩
      · rintro ⟨v, hv⟩
        have : (k, f v) ∈ a.map (fun p => (p.1, f p.2)) :=
          (h (k, f v)).mpr (List.mem_map.mpr ⟨(k, v), hv, rfl⟩)
        obtain ⟨p, hpa, hpe⟩ := List.mem_map.mp this
        obtain ⟨h1, _⟩ := Prod.mk.injEq _ _ _ _ |>.mp hpe
        exact ⟨p.2, by rw [← h1]; exact hpa⟩
    · intro k v w hv hw
      have : (k, f v) ∈ b.map (fun p => (p.1, f p.2)) :=
        (h (k, f v)).mp (List.mem_map.mpr ⟨(k, v), hv, rfl⟩)
      obtain ⟨p, hpb, hpe⟩ := List.mem_map.mp this
      obtain ⟨h1, h2⟩ := Prod.mk.injEq _ _ _ _ |>.mp hpe
      have hpw : p.2 = w := by
        apply nodup_lookup_unique b hb k p.2 w _ hw
        rw [← h1]
        exact hpb
      rw [← h2, hpw]
  · rintro ⟨hk, hval⟩ q
    constructor
    · intro hq
      obtain ⟨p, hpa, hpe⟩ := List.mem_map.mp hq
      obtain ⟨w, hw⟩ := (hk p.1).mp ⟨p.2, hpa⟩
      have : f p.2 = f w := hval p.1 p.2 w hpa hw
      rw [← hpe]
      exact List.mem_map.mpr ⟨(p.1, w), hw, by rw [← this]⟩
    · intro hq
      obtain ⟨p, hpb, hpe⟩ := List.mem_map.mp hq
      obtain ⟨w, hw⟩ := (hk p.1).mpr ⟨p.2, hpb⟩
      have : f w = f p.2 := hval p.1 w p.2 hw hpb
      rw [← hpe]
      exact List.mem_map.mpr ⟨(p.1, w), hw, by rw [this]⟩

theorem canon3_eq_iff (a b : GroupMap) (ha : nkeys a) (hb : nkeys b) :
    canon3 a = canon3 b ↔ eqv3 a b := by
  unfold canon3
  rw [canonsort_eq_iff_graph a b ha hb]
  constructor
  · intro h
    constructor
    · intro k
      constructor
      · rintro ⟨v, hv⟩; exact ⟨v, (h (k, v)).mp hv⟩
      · rintro ⟨v, hv⟩; exact ⟨v, (h (k, v)).mpr hv⟩
    · intro k v w hv hw
      exact nodup_lookup_unique b hb k v w ((h (k, v)).mp hv) hw
  · rintro ⟨hk, hval⟩ p
    constructor
    · intro hp
      obtain ⟨w, hw⟩ := (hk p.1).mp ⟨p.2, hp⟩
      have : p.2 = w := hval p.1 p.2 w hp hw
      rw [show p = (p.1, p.2) from rfl, this]
      exact hw
    · intro hp
      obtain ⟨w, hw⟩ := (hk p.1).mpr ⟨p.2, hp⟩
      have : w = p.2 := hval p.1 w p.2 hw hp
      rw [show p = (p.1, p.2) from rfl, ← this]
      exact hw

theorem map_canon_keys_nodup {α : Type} (g : α → α) (m : List (String × α))
    (hm : (m.map Prod.fst).Nodup) :
    ((m.map (fun p => (p.1, g p.2))).map Prod.fst).Nodup := by
  rw [List.map_map]
  exact hm

theorem canon2_eq_iff (a b : ResultMap) (ha : nk2 a) (hb : nk2 b) :
    canon2 a = canon2 b ↔ eqv2 a b := by
  unfold canon2
  rw [canonsort_eq_iff_graph _ _ (map_canon_keys_nodup canon3 a ha.1)
      (map_canon_keys_nodup canon3 b hb.1),
    graph_map_iff canon3 a b ha.1 hb.1]
  constructor
  · rintro ⟨h1, h2⟩
    refine ⟨h1, ?_⟩
    intro k v w hv hw
    exact (canon3_eq_iff v w (ha.2 (k, v) hv) (hb.2 (k, w) hw)).mp (h2 k v w hv hw)
  · rintro ⟨h1, h2⟩
    refine ⟨h1, ?_⟩
    intro k v w hv hw
    exact (canon3_eq_iff v w (ha.2 (k, v) hv) (hb.2 (k, w) hw)).mpr (h2 k v w hv hw)

theorem canon1_eq_iff (a b : DataMap) (ha : nk1 a) (hb : nk1 b) :
    canon1 a = canon1 b ↔ eqv1 a b := by
  unfold canon1
  rw [canonsort_eq_iff_graph _ _ (map_canon_keys_nodup canon2 a ha.1)
      (map_canon_keys_nodup canon2 b hb.1),
    graph_map_iff canon2 a b ha.1 hb.1]
  constructor
  · rintro ⟨h1, h2⟩
    refine ⟨h1, ?_⟩
    intro k v w hv hw
    exact (canon2_eq_iff v w (ha.2 (k, v) hv) (hb.2 (k, w) hw)).mp (h2 k v w hv hw)
  · rintro ⟨h1, h2⟩
    refine ⟨h1, ?_⟩
    intro k v w hv hw
    exact (canon2_eq_iff v w (ha.2 (k, v) hv) (hb.2 (k, w) hw)).mpr (h2 k v w hv hw)

/-- C5: the pre-write change check reports "unchanged" exactly when the two
per-date maps are structurally equal as nested finite maps, so key
insertion order at any level never affects the result and any difference
in a single (date, group, hour) value makes it report "changed"; update
timestamp and legend metadata never enter the comparison (has_changed only
receives the two data maps). -/
theorem differ_unchanged_iff (old_data new_data : DataMap)
    (ho : nk1 old_data) (hn : nk1 new_data) :
    has_changed old_data new_data = false ↔ eqv1 old_data new_data := by
  unfold has_changed
  rw [← canon1_eq_iff old_data new_data ho hn]
  constructor
  · intro h
    have hd : decide (canon1 old_data = canon1 new_data) = true := by
      cases hd : decide (canon1 old_data = canon1 new_data)
      · rw [hd] at h
        simp at h
      · rfl
    exact of_decide_eq_true hd
  · intro h
    rw [decide_eq_true h]
    rfl

/-- Witness for differ_unchanged_iff: the same two-group schedule written
with every level in two different insertion orders is reported unchanged,
and flipping one hour value is reported changed. -/
theorem differ_unchanged_iff_witness :
    nk1 [("1000", [("GPVA", [("1", "yes"), ("2", "no")]), ("GPVB", [("3", "no")])])] ∧
    nk1 [("1000", [("GPVB", [("3", "no")]), ("GPVA", [("2", "no"), ("1", "yes")])])] ∧
    has_changed
      [("1000", [("GPVA", [("1", "yes"), ("2", "no")]), ("GPVB", [("3", "no")])])]
      [("1000", [("GPVB", [("3", "no")]), ("GPVA", [("2", "no"), ("1", "yes")])])] = false ∧
    has_changed
      [("1000", [("GPVA", [("1", "yes"), ("2", "no")]), ("GPVB", [("3", "no")])])]
      [("1000", [("GPVA", [("1", "yes"), ("2", "yes")]), ("GPVB", [("3", "no")])])] = true ∧
    (has_changed
      [("1000", [("GPVA", [("1", "yes"), ("2", "no")]), ("GPVB", [("3", "no")])])]
      [("1000", [("GPVB", [("3", "no")]), ("GPVA", [("2", "no"), ("1", "yes")])])] = false ↔
      eqv1 [("1000", [("GPVA", [("1", "yes"), ("2", "no")]), ("GPVB", [("3", "no")])])]
        [("1000", [("GPVB", [("3", "no")]), ("GPVA", [("2", "no"), ("1", "yes")])])]) :=
  ⟨by decide, by decide, by decide, by decide,
    differ_unchanged_iff _ _ (by decide) (by decide)⟩

end Zoe
